import Mathlib

/-!
Verification of the block-transport framing adapter, fixed-width codec,
response-frame decoder and tolerance-notation parser of the
Signaloid-C0-microSD Cardputer demo (`src/code.py`), as a shallow
embedding in Lean 4.

Modelling conventions:
* A byte buffer is a `List ℕ` (each produced byte is `< 256`).
* A Python `float` (double) is identified with its 64-bit pattern, a `ℕ`
  below `2 ^ 64`; `struct.pack`/`struct.unpack` on doubles are the
  little-endian byte serialisation of that pattern, which is bijective,
  so pack/unpack round-trips are stated on patterns.
* The SD block-storage capability (`sd_protocol.SD`) is opaque: a record
  of `read_blocks` and `write_blocks` functions.
* Tolerance arithmetic is modelled exactly over `ℚ`; Python strings are
  `List Char` (wrapped in `String` at the interface).
-/

/-- Little-endian byte serialisation of `v` on `count` bytes
(the semantics of one `d`-format item of `struct.pack`, the double being
identified with its 64-bit pattern, and of one `I`-format item on 4 bytes). -/
def natToBytesLE : Nat → Nat → List Nat
  | 0, _ => []
  | count + 1, v => v % 256 :: natToBytesLE count (v / 256)

/-- Little-endian byte deserialisation (the semantics of one
`struct.unpack` item read from a byte list). -/
def bytesToNatLE : List Nat → Nat
  | [] => 0
  | b :: bs => b + 256 * bytesToNatLE bs

theorem natToBytesLE_length (count v : Nat) : (natToBytesLE count v).length = count := by
  induction count generalizing v with
  | zero => rfl
  | succ n ih => simp [natToBytesLE, ih]

theorem bytesToNatLE_natToBytesLE (count v : Nat) :
    bytesToNatLE (natToBytesLE count v) = v % 256 ^ count := by
  induction count generalizing v with
  | zero => simp [natToBytesLE, bytesToNatLE, Nat.mod_one]
  | succ n ih =>
      simp only [natToBytesLE, bytesToNatLE, ih]
      rw [Nat.pow_succ, Nat.mul_comm (256 ^ n) 256, Nat.mod_mul]

/-- The opaque SD block-storage capability used by
`C0microSDSignaloidSoCInterfaceSDSPI` (`sd_protocol.SD`): whole-block
reads and writes. -/
structure SD where
  read_blocks : Nat → Nat → List Nat
  write_blocks : Nat → List Nat → Nat

/-- `num_blocks` as computed by `C0microSDSignaloidSoCInterfaceSDSPI._read`:
`bytes // 512` when `bytes` is a multiple of 512, else `bytes // 512 + 1`. -/
def num_blocks (bytes : Nat) : Nat :=
  if bytes % 512 = 0 then bytes / 512 else bytes / 512 + 1

/-- `C0microSDSignaloidSoCInterfaceSDSPI._read`: read `num_blocks bytes`
blocks at `offset` and keep `data[0:bytes]`. -/
def sdspi_read (sd : SD) (offset bytes : Nat) : List Nat :=
  (sd.read_blocks offset (num_blocks bytes)).take bytes

/-- The padded buffer that `C0microSDSignaloidSoCInterfaceSDSPI._write`
passes to `write_blocks`: the data followed by `512 - len(data) % 512`
zero bytes. -/
def writePadded (data : List Nat) : List Nat :=
  data ++ List.replicate (512 - data.length % 512) 0

/-- `C0microSDSignaloidSoCInterfaceSDSPI._write`: pad the data to a block
boundary and delegate to `write_blocks`. -/
def sdspi_write (sd : SD) (offset : Nat) (data : List Nat) : Nat :=
  sd.write_blocks offset (writePadded data)

theorem writePadded_length (data : List Nat) :
    (writePadded data).length = data.length + (512 - data.length % 512) := by
  simp [writePadded]

/-- C2: write(offset, data) passes to the block storage capability a buffer of
length `data.length + (512 - data.length mod 512)`; this padded length is a
multiple of 512 and strictly greater than `data.length`; when `data.length` is
already a multiple of 512 a full extra 512-byte zero block is appended. -/
theorem write_pads_to_block_boundary (sd : SD) (offset : Nat) (data : List Nat) :
    sdspi_write sd offset data = sd.write_blocks offset (writePadded data) ∧
    (writePadded data).length = data.length + (512 - data.length % 512) ∧
    512 ∣ (writePadded data).length ∧
    data.length < (writePadded data).length ∧
    (data.length % 512 = 0 → writePadded data = data ++ List.replicate 512 0) := by
  refine ⟨rfl, writePadded_length data, ?_, ?_, ?_⟩
  · rw [writePadded_length]
    have h := Nat.mod_lt data.length (y := 512) (by omega)
    omega
  · rw [writePadded_length]
    have h := Nat.mod_lt data.length (y := 512) (by omega)
    omega
  · intro h
    rw [writePadded, h, Nat.sub_zero]

/-- Witness for C2 at a block-aligned input (the empty buffer) and a concrete
storage capability. -/
theorem write_pads_to_block_boundary_witness :
    sdspi_write ⟨fun _ _ => [], fun _ d => d.length⟩ 0 [] =
      SD.write_blocks ⟨fun _ _ => [], fun _ d => d.length⟩ 0 (writePadded []) ∧
    (writePadded ([] : List Nat)).length = 0 + (512 - 0 % 512) ∧
    512 ∣ (writePadded ([] : List Nat)).length ∧
    ([] : List Nat).length < (writePadded []).length ∧
    writePadded ([] : List Nat) = [] ++ List.replicate 512 0 := by
  have h := write_pads_to_block_boundary ⟨fun _ _ => [], fun _ d => d.length⟩ 0 []
  exact ⟨h.1, h.2.1, h.2.2.1, h.2.2.2.1, h.2.2.2.2 rfl⟩

theorem num_blocks_eq_ceil (bytes : Nat) : num_blocks bytes = (bytes + 511) / 512 := by
  unfold num_blocks
  split
  · omega
  · omega

theorem le_mul_num_blocks (bytes : Nat) : bytes ≤ 512 * num_blocks bytes := by
  unfold num_blocks
  split
  · omega
  · omega

/-- C3: read(offset, byteCount) requests exactly `ceil(byteCount / 512)` blocks
from the block storage capability and, provided the capability returns one
512-byte unit per requested block, returns exactly the first `byteCount` bytes
of the raw block data, so the returned value has length `byteCount`. -/
theorem read_requests_ceil_blocks (sd : SD) (offset bytes : Nat)
    (h : (sd.read_blocks offset (num_blocks bytes)).length = 512 * num_blocks bytes) :
    num_blocks bytes = (bytes + 511) / 512 ∧
    sdspi_read sd offset bytes = (sd.read_blocks offset (num_blocks bytes)).take bytes ∧
    (sdspi_read sd offset bytes).length = bytes := by
  refine ⟨num_blocks_eq_ceil bytes, rfl, ?_⟩
  simp only [sdspi_read, List.length_take, h]
  exact Nat.min_eq_left (le_mul_num_blocks bytes)

/-- Witness for C3: a 5-byte read over a capability that returns 512 bytes per
block requests one block and yields 5 bytes. -/
theorem read_requests_ceil_blocks_witness :
    num_blocks 5 = (5 + 511) / 512 ∧
    sdspi_read ⟨fun _ n => List.replicate (512 * n) 7, fun _ _ => 0⟩ 3 5 =
      (SD.read_blocks ⟨fun _ n => List.replicate (512 * n) 7, fun _ _ => 0⟩ 3 (num_blocks 5)).take 5 ∧
    (sdspi_read ⟨fun _ n => List.replicate (512 * n) 7, fun _ _ => 0⟩ 3 5).length = 5 :=
  read_requests_ceil_blocks ⟨fun _ n => List.replicate (512 * n) 7, fun _ _ => 0⟩ 3 5
    (by simp)

/-- `struct.pack(f"{len(doubles)}d", *doubles)`: the concatenation of the
8-byte serialisations of the doubles, in input order. -/
def structPackDoubles (doubles : List Nat) : List Nat :=
  (doubles.map (natToBytesLE 8)).flatten

/-- `pack_doubles` (`code.py`): serialise the doubles, zero-pad up to `size`,
and raise `ValueError` when the serialised buffer exceeds `size`. -/
def pack_doubles (doubles : List Nat) (size : Nat) : Except String (List Nat) :=
  let buffer := structPackDoubles doubles
  if buffer.length < size then .ok (buffer ++ List.replicate (size - buffer.length) 0)
  else if buffer.length > size then
    .error "Buffer length exceeds size bytes after packing doubles."
  else .ok buffer

/-- `struct.unpack(f"{count}d", ...)`: read `count` consecutive 8-byte
doubles from the front of the byte list. -/
def structUnpackDoubles : List Nat → Nat → List Nat
  | _, 0 => []
  | bs, count + 1 => bytesToNatLE (bs.take 8) :: structUnpackDoubles (bs.drop 8) count

/-- `unpack_doubles` (`code.py`): raise `ValueError` when the buffer holds
fewer than `8 * count` bytes, else decode the first `count` doubles from
`byte_buffer[:8 * count]`. -/
def unpack_doubles (byte_buffer : List Nat) (count : Nat) : Except String (List Nat) :=
  let expected_size := 8 * count
  if byte_buffer.length < expected_size then
    .error "Buffer too small: expected more bytes than got."
  else .ok (structUnpackDoubles (byte_buffer.take expected_size) count)

theorem structPackDoubles_length (doubles : List Nat) :
    (structPackDoubles doubles).length = 8 * doubles.length := by
  induction doubles with
  | nil => rfl
  | cons d ds ih =>
      simp [structPackDoubles, natToBytesLE_length] at ih ⊢
      omega

theorem pack_doubles_of_le (doubles : List Nat) (size : Nat)
    (h : 8 * doubles.length ≤ size) :
    pack_doubles doubles size =
      .ok (structPackDoubles doubles ++ List.replicate (size - 8 * doubles.length) 0) := by
  rcases Nat.lt_or_ge (8 * doubles.length) size with hlt | hge
  · have h1 : (structPackDoubles doubles).length < size := by
      rw [structPackDoubles_length]; exact hlt
    simp [pack_doubles, structPackDoubles_length, hlt]
  · have heq : 8 * doubles.length = size := Nat.le_antisymm h hge
    have h1 : (structPackDoubles doubles).length = size := by
      rw [structPackDoubles_length, heq]
    simp [pack_doubles, h1, heq]

theorem structUnpackDoubles_structPackDoubles (doubles : List Nat)
    (h : ∀ d ∈ doubles, d < 2 ^ 64) :
    structUnpackDoubles (structPackDoubles doubles) doubles.length = doubles := by
  induction doubles with
  | nil => rfl
  | cons d ds ih =>
      have hd : d < 2 ^ 64 := h d (List.mem_cons_self d ds)
      have hbytes : (natToBytesLE 8 d).length = 8 := natToBytesLE_length 8 d
      have hjoin : structPackDoubles (d :: ds) = natToBytesLE 8 d ++ structPackDoubles ds := by
        simp [structPackDoubles]
      rw [List.length_cons, hjoin]
      show bytesToNatLE ((natToBytesLE 8 d ++ structPackDoubles ds).take 8) ::
          structUnpackDoubles ((natToBytesLE 8 d ++ structPackDoubles ds).drop 8) ds.length = _
      rw [List.take_append_of_le_length (by omega), List.drop_append_of_le_length (by omega),
        List.take_of_length_le (by omega), List.drop_of_length_le (by omega), List.nil_append,
        bytesToNatLE_natToBytesLE]
      have h256 : (256 : Nat) ^ 8 = 2 ^ 64 := by norm_num
      rw [h256, Nat.mod_eq_of_lt hd, ih (fun x hx => h x (List.mem_cons_of_mem d hx))]

/-- C4: for every list of doubles (64-bit patterns) and every `size` with
`size ≥ 8 * len(values)`, unpacking the packed buffer returns the original
values: `unpack_doubles (pack_doubles values size) (len values) = values`. -/
theorem pack_unpack_doubles_roundtrip (values : List Nat) (size : Nat)
    (hvals : ∀ d ∈ values, d < 2 ^ 64) (hsize : 8 * values.length ≤ size) :
    ∃ buf, pack_doubles values size = .ok buf ∧
      unpack_doubles buf values.length = .ok values := by
  refine ⟨structPackDoubles values ++ List.replicate (size - 8 * values.length) 0,
    pack_doubles_of_le values size hsize, ?_⟩
  unfold unpack_doubles
  have hlen : (structPackDoubles values ++
      List.replicate (size - 8 * values.length) 0).length = size := by
    simp [structPackDoubles_length]
    omega
  rw [hlen]
  have hnotlt : ¬ size < 8 * values.length := Nat.not_lt.mpr hsize
  simp only [hnotlt, if_false]
  rw [List.take_append_of_le_length (by rw [structPackDoubles_length]),
    List.take_of_length_le (Nat.le_of_eq (structPackDoubles_length values)),
    structUnpackDoubles_structPackDoubles values hvals]

/-- Witness for C4 at `values = [3, 2 ^ 64 - 1]`, `size = 24`. -/
theorem pack_unpack_doubles_roundtrip_witness :
    ∃ buf, pack_doubles [3, 2 ^ 64 - 1] 24 = .ok buf ∧
      unpack_doubles buf [3, 2 ^ 64 - 1].length = .ok [3, 2 ^ 64 - 1] :=
  pack_unpack_doubles_roundtrip [3, 2 ^ 64 - 1] 24 (by decide) (by decide)

theorem pack_doubles_error_of_gt (doubles : List Nat) (size : Nat)
    (h : size < 8 * doubles.length) :
    pack_doubles doubles size = .error "Buffer length exceeds size bytes after packing doubles." := by
  simp [pack_doubles, structPackDoubles_length, h, Nat.not_lt.mpr (Nat.le_of_lt h)]

/-- C5: `pack_doubles values size` fails (with the capacity `ValueError`)
exactly when the serialised length `8 * len(values)` exceeds `size`; on success
it returns the full serialisation followed by right zero-padding up to `size`
(so it never truncates, and the result has length exactly `size`). -/
theorem pack_doubles_capacity (values : List Nat) (size : Nat) :
    ((∃ e, pack_doubles values size = .error e) ↔ size < 8 * values.length) ∧
    (8 * values.length ≤ size →
      pack_doubles values size =
        .ok (structPackDoubles values ++ List.replicate (size - 8 * values.length) 0) ∧
      ∀ buf, pack_doubles values size = .ok buf → buf.length = size ∧
        buf.take (8 * values.length) = structPackDoubles values) := by
  constructor
  · constructor
    · rintro ⟨e, he⟩
      by_contra hn
      rw [pack_doubles_of_le values size (Nat.not_lt.mp hn)] at he
      exact Except.noConfusion he
    · intro hlt
      exact ⟨_, pack_doubles_error_of_gt values size hlt⟩
  · intro hle
    refine ⟨pack_doubles_of_le values size hle, ?_⟩
    intro buf hbuf
    rw [pack_doubles_of_le values size hle] at hbuf
    injection hbuf with hbuf
    subst hbuf
    constructor
    · simp [structPackDoubles_length]
      omega
    · rw [List.take_append_of_le_length (by rw [structPackDoubles_length]),
        List.take_of_length_le (Nat.le_of_eq (structPackDoubles_length values))]

/-- Witness for C5: packing one double into 16 bytes succeeds zero-padded, and
packing three doubles into 16 bytes fails. -/
theorem pack_doubles_capacity_witness :
    pack_doubles [5] 16 = .ok (structPackDoubles [5] ++ List.replicate (16 - 8 * 1) 0) ∧
    (∃ e, pack_doubles [9, 9, 9] 16 = .error e) := by
  refine ⟨((pack_doubles_capacity [5] 16).2 (by norm_num)).1, ?_⟩
  exact (pack_doubles_capacity [9, 9, 9] 16).1.mpr (by norm_num)

theorem structUnpackDoubles_length (bs : List Nat) (count : Nat) :
    (structUnpackDoubles bs count).length = count := by
  induction count generalizing bs with
  | zero => rfl
  | succ n ih => simp [structUnpackDoubles, ih]

/-- C6: `unpack_doubles buffer count` fails (with the capacity `ValueError`)
when `buffer.length < 8 * count`; otherwise it returns exactly the `count`
doubles decoded from `buffer[:8 * count]`, so any bytes past `8 * count` are
ignored: appending extra bytes to that prefix leaves the result unchanged. -/
theorem unpack_doubles_capacity (buffer : List Nat) (count : Nat) :
    (buffer.length < 8 * count → ∃ e, unpack_doubles buffer count = .error e) ∧
    (8 * count ≤ buffer.length →
      unpack_doubles buffer count =
        .ok (structUnpackDoubles (buffer.take (8 * count)) count) ∧
      (structUnpackDoubles (buffer.take (8 * count)) count).length = count ∧
      ∀ extra, unpack_doubles (buffer.take (8 * count) ++ extra) count =
        unpack_doubles buffer count) := by
  constructor
  · intro hlt
    refine ⟨"Buffer too small: expected more bytes than got.", ?_⟩
    simp [unpack_doubles, hlt]
  · intro hle
    have hnot : ¬ buffer.length < 8 * count := Nat.not_lt.mpr hle
    refine ⟨by simp [unpack_doubles, hnot], structUnpackDoubles_length _ _, ?_⟩
    intro extra
    have hlen : (buffer.take (8 * count) ++ extra).length = 8 * count + extra.length := by
      simp
      omega
    have hnot2 : ¬ (buffer.take (8 * count) ++ extra).length < 8 * count := by
      rw [hlen]; omega
    have htake : (buffer.take (8 * count) ++ extra).take (8 * count) =
        buffer.take (8 * count) := by
      rw [List.take_append_of_le_length (by simp; omega), List.take_take]
      simp
    simp only [unpack_doubles, hnot, hnot2, if_false, htake]

/-- Witness for C6: a 7-byte buffer fails for one double; a 16-byte buffer
decodes one double from its first 8 bytes, ignoring the rest. -/
theorem unpack_doubles_capacity_witness :
    (∃ e, unpack_doubles (List.replicate 7 0) 1 = .error e) ∧
    unpack_doubles (List.replicate 16 3) 1 =
      .ok (structUnpackDoubles ((List.replicate 16 3).take (8 * 1)) 1) := by
  refine ⟨(unpack_doubles_capacity (List.replicate 7 0) 1).1 (by simp), ?_⟩
  exact ((unpack_doubles_capacity (List.replicate 16 3) 1).2 (by simp)).1

/-- The result-frame decoding steps of `main` (`code.py`):
`struct.unpack("I", result_buffer[:4])` (which raises `struct.error` when the
buffer holds fewer than 4 bytes), then `result_buffer[4:][:returned_bytes]`.
No other check is performed. -/
def decodeFrame (result_buffer : List Nat) : Except String (List Nat) :=
  if result_buffer.length < 4 then
    .error "struct.error: unpack requires a buffer of 4 bytes"
  else
    .ok ((result_buffer.drop 4).take (bytesToNatLE (result_buffer.take 4)))

/-- Counterexample to C1: the buffer `[5, 0, 0, 0, 0xAA]` declares a payload
length `L = 5` and has length `5 < 4 + L`, yet frame decoding does not fail:
the slice `buffer[4:][:5]` silently yields the single byte `0xAA`. -/
theorem decodeFrame_no_short_check_counterexample :
    bytesToNatLE ([5, 0, 0, 0, 170].take 4) = 5 ∧
    ([5, 0, 0, 0, 170] : List Nat).length < 4 + 5 ∧
    decodeFrame [5, 0, 0, 0, 170] = .ok [170] := by
  refine ⟨by decide, by decide, rfl⟩

/-- C1 as amended: decoding fails only when the buffer has fewer than 4 bytes
(in `struct.unpack`). With at least 4 bytes it never fails: it returns
`buffer[4 : 4+L]`, whose length is `min L (buffer.length - 4)` — a silently
short payload when `buffer.length < 4 + L`; when `buffer.length ≥ 4 + L` it is
exactly the `L` payload bytes and the trailing bytes are discarded. -/
theorem decodeFrame_spec (buffer : List Nat) :
    (buffer.length < 4 → ∃ e, decodeFrame buffer = .error e) ∧
    (4 ≤ buffer.length →
      decodeFrame buffer = .ok ((buffer.drop 4).take (bytesToNatLE (buffer.take 4))) ∧
      ((buffer.drop 4).take (bytesToNatLE (buffer.take 4))).length =
        min (bytesToNatLE (buffer.take 4)) (buffer.length - 4) ∧
      (4 + bytesToNatLE (buffer.take 4) ≤ buffer.length →
        ∃ payload rest, buffer = buffer.take 4 ++ payload ++ rest ∧
          payload.length = bytesToNatLE (buffer.take 4) ∧
          decodeFrame buffer = .ok payload)) := by
  constructor
  · intro hlt
    refine ⟨"struct.error: unpack requires a buffer of 4 bytes", ?_⟩
    simp [decodeFrame, hlt]
  · intro hge
    have hnot : ¬ buffer.length < 4 := Nat.not_lt.mpr hge
    have hok : decodeFrame buffer =
        .ok ((buffer.drop 4).take (bytesToNatLE (buffer.take 4))) := by
      simp [decodeFrame, hnot]
    refine ⟨hok, by simp, ?_⟩
    intro hL
    refine ⟨(buffer.drop 4).take (bytesToNatLE (buffer.take 4)),
      (buffer.drop 4).drop (bytesToNatLE (buffer.take 4)), ?_, ?_, hok⟩
    · rw [List.append_assoc, List.take_append_drop, List.take_append_drop]
    · simp
      omega

/-- Witness for the amended C1: a 2-byte buffer fails, and a 7-byte buffer
with `L = 2` decodes to exactly its 2 payload bytes. -/
theorem decodeFrame_spec_witness :
    (∃ e, decodeFrame [1, 2] = .error e) ∧
    decodeFrame [2, 0, 0, 0, 9, 9, 7] =
      .ok (([2, 0, 0, 0, 9, 9, 7].drop 4).take (bytesToNatLE ([2, 0, 0, 0, 9, 9, 7].take 4))) ∧
    (∃ payload rest, ([2, 0, 0, 0, 9, 9, 7] : List Nat) =
        [2, 0, 0, 0, 9, 9, 7].take 4 ++ payload ++ rest ∧
      payload.length = bytesToNatLE ([2, 0, 0, 0, 9, 9, 7].take 4) ∧
      decodeFrame [2, 0, 0, 0, 9, 9, 7] = .ok payload) :=
  ⟨(decodeFrame_spec [1, 2]).1 (by decide),
   ((decodeFrame_spec [2, 0, 0, 0, 9, 9, 7]).2 (by decide)).1,
   ((decodeFrame_spec [2, 0, 0, 0, 9, 9, 7]).2 (by decide)).2.2 (by decide)⟩

/-- Python `str.split(sep)` for a one-character separator: splits at every
occurrence, keeping empty pieces. -/
def splitOnChar (c : Char) : List Char → List (List Char)
  | [] => [[]]
  | x :: xs =>
    if x = c then [] :: splitOnChar c xs
    else
      match splitOnChar c xs with
      | [] => [[x]]
      | y :: ys => (x :: y) :: ys

/-- The leading run of `c` removed. -/
def dropLeadingChar (c : Char) : List Char → List Char
  | [] => []
  | x :: xs => if x = c then dropLeadingChar c xs else x :: xs

/-- Python `str.strip(c)`: every leading and trailing occurrence of `c`
removed. -/
def stripChar (c : Char) (s : List Char) : List Char :=
  (dropLeadingChar c (dropLeadingChar c s).reverse).reverse

/-- The numeric value of a run of decimal digits. -/
def digitsToNat (ds : List Char) : Nat :=
  ds.foldl (fun acc c => 10 * acc + (c.toNat - 48)) 0

/-- Whether every character is a decimal digit. -/
def isDigits (ds : List Char) : Bool :=
  ds.all (fun c => c.isDigit)

/-- Modelled subset of Python `int()`: an optional sign followed by a nonempty
run of decimal digits (no underscores or surrounding whitespace). -/
def parsePyInt : List Char → Option Int
  | [] => none
  | '-' :: rest =>
      if rest ≠ [] ∧ isDigits rest then some (-(digitsToNat rest : Int)) else none
  | '+' :: rest =>
      if rest ≠ [] ∧ isDigits rest then some ((digitsToNat rest : Int)) else none
  | s => if isDigits s then some ((digitsToNat s : Int)) else none

/-- An unsigned decimal literal with at most one point, as an exact rational:
`digits`, `digits.`, `.digits` or `digits.digits`. -/
def parsePyFloatCore (s : List Char) : Option ℚ :=
  match splitOnChar '.' s with
  | [ip] => if ip ≠ [] ∧ isDigits ip then some ((digitsToNat ip : ℚ)) else none
  | [ip, fp] =>
      if (ip ≠ [] ∨ fp ≠ []) ∧ isDigits ip ∧ isDigits fp then
        some ((digitsToNat ip : ℚ) + (digitsToNat fp : ℚ) / 10 ^ fp.length)
      else none
  | _ => none

/-- Modelled subset of Python `float()`: an optional sign followed by a decimal
literal (no exponent, infinity, nan or underscores), exact over `ℚ`. -/
def parsePyFloat : List Char → Option ℚ
  | '-' :: rest => (parsePyFloatCore rest).map Neg.neg
  | '+' :: rest => parsePyFloatCore rest
  | s => parsePyFloatCore s

/-- Python `10 ** order` for an integer `order`, exact over `ℚ`. -/
def pow10 (order : Int) : ℚ :=
  if 0 ≤ order then (10 : ℚ) ^ order.toNat else ((10 : ℚ) ^ (-order).toNat)⁻¹

/-- The "find smallest order" step of `parse_tolerance_value` (`code.py`):
when `value_str` contains `'.'`, split at the decimal point into exactly two
parts (`_, decimal_part = value_str.split(".")`, which raises `ValueError`
when the point occurs more than once) and take minus the number of characters
after the point; otherwise the order is 0. -/
def toleranceOrder (value_str : List Char) : Except String Int :=
  if '.' ∈ value_str then
    match splitOnChar '.' value_str with
    | [_, decimal_part] => .ok (-(decimal_part.length : Int))
    | _ => .error "ValueError: too many values to unpack"
  else .ok 0

/-- The conversion steps of `parse_tolerance_value` after the split on `'('`:
strip `')'` from the uncertainty part, derive the order, convert value and
uncertainty (`float`/`int`, whose failures raise `ValueError`), and return
`(value - uncertainty * 10 ** order, value + uncertainty * 10 ** order)`. -/
def toleranceFromParts (value_str uncertainty_raw : List Char) : Except String (ℚ × ℚ) :=
  match toleranceOrder value_str with
  | .error e => .error e
  | .ok order =>
    match parsePyFloat value_str, parsePyInt (stripChar ')' uncertainty_raw) with
    | some value, some uncertainty =>
      .ok (value - uncertainty * pow10 order, value + uncertainty * pow10 order)
    | _, _ => .error "ValueError: invalid literal"

/-- `parse_tolerance_value` (`code.py`): require `'('` and `')'` to occur in
the input, split on `'('` into exactly two parts (more parts raise the
unpacking `ValueError`), then convert via `toleranceFromParts`. -/
def parse_tolerance_value (value_with_uncertainty : String) : Except String (ℚ × ℚ) :=
  if ¬ ('(' ∈ value_with_uncertainty.data ∧ ')' ∈ value_with_uncertainty.data) then
    .error "Invalid format. Please provide value in the format X.Y(Z)"
  else
    match splitOnChar '(' value_with_uncertainty.data with
    | [value_str, uncertainty_raw] => toleranceFromParts value_str uncertainty_raw
    | _ => .error "ValueError: too many values to unpack"

theorem splitOnChar_ne_nil (c : Char) (l : List Char) : splitOnChar c l ≠ [] := by
  cases l with
  | nil => simp [splitOnChar]
  | cons x xs =>
      simp only [splitOnChar]
      split
      · simp
      · split <;> simp

theorem splitOnChar_cons_self (c : Char) (xs : List Char) :
    splitOnChar c (c :: xs) = [] :: splitOnChar c xs := by
  conv_lhs => unfold splitOnChar
  exact if_pos rfl

theorem splitOnChar_cons_of_ne (c x : Char) (xs y : List Char) (ys : List (List Char))
    (hx : x ≠ c) (hsp : splitOnChar c xs = y :: ys) :
    splitOnChar c (x :: xs) = (x :: y) :: ys := by
  conv_lhs => unfold splitOnChar
  rw [if_neg hx, hsp]

theorem splitOnChar_length (c : Char) (l : List Char) :
    (splitOnChar c l).length = l.count c + 1 := by
  induction l with
  | nil => rfl
  | cons x xs ih =>
      by_cases hx : x = c
      · subst hx
        rw [splitOnChar_cons_self, List.length_cons, ih, List.count_cons_self]
      · rcases hsp : splitOnChar c xs with _ | ⟨y, ys⟩
        · exact absurd hsp (splitOnChar_ne_nil c xs)
        · rw [splitOnChar_cons_of_ne c x xs y ys hx hsp, List.length_cons,
            List.count_cons_of_ne (fun hc => hx hc.symm)]
          rw [hsp] at ih
          simpa using ih

theorem pow10_pos (order : Int) : 0 < pow10 order := by
  unfold pow10
  split
  · positivity
  · positivity

theorem toleranceOrder_dot (value_str ip dp : List Char) (hdot : '.' ∈ value_str)
    (hsplit : splitOnChar '.' value_str = [ip, dp]) :
    toleranceOrder value_str = .ok (-(dp.length : Int)) := by
  simp [toleranceOrder, hdot, hsplit]

theorem toleranceOrder_no_dot (value_str : List Char) (hdot : '.' ∉ value_str) :
    toleranceOrder value_str = .ok 0 := by
  simp [toleranceOrder, hdot]

theorem toleranceFromParts_eq (value_str uncertainty_raw : List Char)
    (value : ℚ) (uncertainty order : Int)
    (horder : toleranceOrder value_str = .ok order)
    (hv : parsePyFloat value_str = some value)
    (hu : parsePyInt (stripChar ')' uncertainty_raw) = some uncertainty) :
    toleranceFromParts value_str uncertainty_raw =
      .ok (value - uncertainty * pow10 order, value + uncertainty * pow10 order) := by
  simp only [toleranceFromParts, horder, hv, hu]

theorem parse_tolerance_value_eq (s : String) (value_str uncertainty_raw : List Char)
    (value : ℚ) (uncertainty order : Int)
    (hparen : '(' ∈ s.data ∧ ')' ∈ s.data)
    (hsplit : splitOnChar '(' s.data = [value_str, uncertainty_raw])
    (horder : toleranceOrder value_str = .ok order)
    (hv : parsePyFloat value_str = some value)
    (hu : parsePyInt (stripChar ')' uncertainty_raw) = some uncertainty) :
    parse_tolerance_value s =
      .ok (value - uncertainty * pow10 order, value + uncertainty * pow10 order) := by
  simp only [parse_tolerance_value, hparen.1, hparen.2, and_self, not_true_eq_false,
    if_false, hsplit]
  exact toleranceFromParts_eq value_str uncertainty_raw value uncertainty order horder hv hu

theorem parse_tolerance_value_ok_inv (s : String) (mn mx : ℚ)
    (h : parse_tolerance_value s = .ok (mn, mx)) :
    ∃ value_str uncertainty_raw value uncertainty order,
      splitOnChar '(' s.data = [value_str, uncertainty_raw] ∧
      parsePyFloat value_str = some value ∧
      parsePyInt (stripChar ')' uncertainty_raw) = some uncertainty ∧
      toleranceOrder value_str = .ok order ∧
      mn = value - uncertainty * pow10 order ∧
      mx = value + uncertainty * pow10 order := by
  unfold parse_tolerance_value at h
  split at h
  · exact absurd h (by simp)
  · split at h
    · next value_str uncertainty_raw heq =>
        unfold toleranceFromParts at h
        split at h
        · exact absurd h (by simp)
        · next order horder =>
            split at h
            · next value uncertainty hv hu =>
                rw [Except.ok.injEq, Prod.mk.injEq] at h
                exact ⟨value_str, uncertainty_raw, value, uncertainty, order, heq, hv, hu,
                  horder, h.1.symm, h.2.symm⟩
            · exact absurd h (by simp)
    · exact absurd h (by simp)

theorem parse_eval_123_4 : parse_tolerance_value "1.23(4)" = .ok (119/100, 127/100) := by
  have hv0 : parsePyFloat ['1', '.', '2', '3'] =
      some (((1 : Nat) : ℚ) + ((23 : Nat) : ℚ) / 10 ^ 2) := rfl
  have hv : parsePyFloat ['1', '.', '2', '3'] = some (123/100) := by
    rw [hv0]; norm_num
  have h := parse_tolerance_value_eq "1.23(4)" ['1', '.', '2', '3'] ['4', ')']
    (123/100) 4 (-2) (by decide) (by decide) rfl hv rfl
  rw [h]
  have hpow : pow10 (-2) = ((10 : ℚ) ^ (2 : Nat))⁻¹ := rfl
  rw [hpow]
  simp only [Except.ok.injEq, Prod.mk.injEq]
  constructor <;> norm_num

theorem parse_eval_10_2_extra_paren : parse_tolerance_value "1.0(2))" = .ok (4/5, 6/5) := by
  have hv0 : parsePyFloat ['1', '.', '0'] =
      some (((1 : Nat) : ℚ) + ((0 : Nat) : ℚ) / 10 ^ 1) := rfl
  have hv : parsePyFloat ['1', '.', '0'] = some 1 := by
    rw [hv0]; norm_num
  have h := parse_tolerance_value_eq "1.0(2))" ['1', '.', '0'] ['2', ')', ')']
    1 2 (-1) (by decide) (by decide) rfl hv rfl
  rw [h]
  have hpow : pow10 (-1) = ((10 : ℚ) ^ (1 : Nat))⁻¹ := rfl
  rw [hpow]
  simp only [Except.ok.injEq, Prod.mk.injEq]
  constructor <;> norm_num

theorem parse_eval_10_1 : parse_tolerance_value "1.0(1)" = .ok (9/10, 11/10) := by
  have hv0 : parsePyFloat ['1', '.', '0'] =
      some (((1 : Nat) : ℚ) + ((0 : Nat) : ℚ) / 10 ^ 1) := rfl
  have hv : parsePyFloat ['1', '.', '0'] = some 1 := by
    rw [hv0]; norm_num
  have h := parse_tolerance_value_eq "1.0(1)" ['1', '.', '0'] ['1', ')']
    1 1 (-1) (by decide) (by decide) rfl hv rfl
  rw [h]
  have hpow : pow10 (-1) = ((10 : ℚ) ^ (1 : Nat))⁻¹ := rfl
  rw [hpow]
  simp only [Except.ok.injEq, Prod.mk.injEq]
  constructor <;> norm_num

theorem parse_eval_20_1 : parse_tolerance_value "2.0(1)" = .ok (19/10, 21/10) := by
  have hv0 : parsePyFloat ['2', '.', '0'] =
      some (((2 : Nat) : ℚ) + ((0 : Nat) : ℚ) / 10 ^ 1) := rfl
  have hv : parsePyFloat ['2', '.', '0'] = some 2 := by
    rw [hv0]; norm_num
  have h := parse_tolerance_value_eq "2.0(1)" ['2', '.', '0'] ['1', ')']
    2 1 (-1) (by decide) (by decide) rfl hv rfl
  rw [h]
  have hpow : pow10 (-1) = ((10 : ℚ) ^ (1 : Nat))⁻¹ := rfl
  rw [hpow]
  simp only [Except.ok.injEq, Prod.mk.injEq]
  constructor <;> norm_num

theorem parse_eval_10_neg4 : parse_tolerance_value "1.0(-4)" = .ok (7/5, 3/5) := by
  have hv0 : parsePyFloat ['1', '.', '0'] =
      some (((1 : Nat) : ℚ) + ((0 : Nat) : ℚ) / 10 ^ 1) := rfl
  have hv : parsePyFloat ['1', '.', '0'] = some 1 := by
    rw [hv0]; norm_num
  have h := parse_tolerance_value_eq "1.0(-4)" ['1', '.', '0'] ['-', '4', ')']
    1 (-4) (-1) (by decide) (by decide) rfl hv rfl
  rw [h]
  have hpow : pow10 (-1) = ((10 : ℚ) ^ (1 : Nat))⁻¹ := rfl
  rw [hpow]
  simp only [Except.ok.injEq, Prod.mk.injEq]
  constructor <;> norm_num

/-- C7: for every tolerance token that parses successfully, with `value` the
parsed float of the part before `'('`, `uncertainty` the parsed integer of the
part inside the parentheses, and `order` minus the number of digits after the
decimal point of the value part (0 when it has no point), the returned pair is
`(value - uncertainty * 10 ^ order, value + uncertainty * 10 ^ order)`. -/
theorem parse_tolerance_value_interval (s : String) (mn mx : ℚ)
    (h : parse_tolerance_value s = .ok (mn, mx)) :
    ∃ value_str uncertainty_raw value uncertainty order,
      splitOnChar '(' s.data = [value_str, uncertainty_raw] ∧
      parsePyFloat value_str = some value ∧
      parsePyInt (stripChar ')' uncertainty_raw) = some uncertainty ∧
      (('.' ∈ value_str ∧ ∃ ip dp, splitOnChar '.' value_str = [ip, dp] ∧
          order = -(dp.length : Int)) ∨
        ('.' ∉ value_str ∧ order = (0 : Int))) ∧
      mn = value - uncertainty * pow10 order ∧
      mx = value + uncertainty * pow10 order := by
  obtain ⟨vstr, ustr, v, u, o, hsplit, hv, hu, ho, hmn, hmx⟩ :=
    parse_tolerance_value_ok_inv s mn mx h
  refine ⟨vstr, ustr, v, u, o, hsplit, hv, hu, ?_, hmn, hmx⟩
  unfold toleranceOrder at ho
  by_cases hdot : '.' ∈ vstr
  · rw [if_pos hdot] at ho
    left
    refine ⟨hdot, ?_⟩
    rcases hsp2 : splitOnChar '.' vstr with _ | ⟨a, _ | ⟨b, _ | ⟨c, t⟩⟩⟩
    · exact absurd hsp2 (splitOnChar_ne_nil _ _)
    · rw [hsp2] at ho; simp at ho
    · rw [hsp2] at ho
      simp only [Except.ok.injEq] at ho
      exact ⟨a, b, rfl, ho.symm⟩
    · rw [hsp2] at ho; simp at ho
  · rw [if_neg hdot] at ho
    right
    simp only [Except.ok.injEq] at ho
    exact ⟨hdot, ho.symm⟩

/-- Witness for C7 at the token `"1.23(4)"`, whose interval is
`[1.19, 1.27]`. -/
theorem parse_tolerance_value_interval_witness :
    ∃ value_str uncertainty_raw value uncertainty order,
      splitOnChar '(' ("1.23(4)" : String).data = [value_str, uncertainty_raw] ∧
      parsePyFloat value_str = some value ∧
      parsePyInt (stripChar ')' uncertainty_raw) = some uncertainty ∧
      (('.' ∈ value_str ∧ ∃ ip dp, splitOnChar '.' value_str = [ip, dp] ∧
          order = -(dp.length : Int)) ∨
        ('.' ∉ value_str ∧ order = (0 : Int))) ∧
      (119/100 : ℚ) = value - uncertainty * pow10 order ∧
      (127/100 : ℚ) = value + uncertainty * pow10 order :=
  parse_tolerance_value_interval "1.23(4)" (119/100) (127/100) parse_eval_123_4

/-- Counterexample to C8: `"1.0(2))"` contains two `')'` — not exactly one —
yet `parse_tolerance_value` does not fail: `.strip(')')` removes every leading
and trailing `')'` of the uncertainty part, so the parse succeeds. -/
theorem parse_tolerance_value_multi_paren_counterexample :
    ("1.0(2))" : String).data.count ')' = 2 ∧
    parse_tolerance_value "1.0(2))" = .ok (4/5, 6/5) :=
  ⟨by decide, parse_eval_10_2_extra_paren⟩

/-- C8 as amended: an input lacking `'('` or lacking `')'` fails with the
format `ValueError`, and an input with two or more `'('` also fails (tuple
unpacking); but an input with more than one `')'` is not necessarily rejected,
since surplus `')'` at the ends of the uncertainty part are stripped. -/
theorem parse_tolerance_value_paren_check (s : String) :
    (¬ ('(' ∈ s.data ∧ ')' ∈ s.data) →
      parse_tolerance_value s =
        .error "Invalid format. Please provide value in the format X.Y(Z)") ∧
    (2 ≤ s.data.count '(' → ∃ e, parse_tolerance_value s = .error e) := by
  constructor
  · intro hp
    unfold parse_tolerance_value
    rw [if_pos hp]
  · intro hcount
    by_cases hp : ('(' ∈ s.data ∧ ')' ∈ s.data)
    · have hlen := splitOnChar_length '(' s.data
      rcases hsp : splitOnChar '(' s.data with _ | ⟨a, _ | ⟨b, _ | ⟨c, rest⟩⟩⟩
      · exact absurd hsp (splitOnChar_ne_nil _ _)
      · rw [hsp] at hlen; simp at hlen; omega
      · rw [hsp] at hlen; simp at hlen; omega
      · refine ⟨"ValueError: too many values to unpack", ?_⟩
        unfold parse_tolerance_value
        rw [if_neg (not_not_intro hp), hsp]
    · refine ⟨"Invalid format. Please provide value in the format X.Y(Z)", ?_⟩
      unfold parse_tolerance_value
      rw [if_pos hp]

/-- Witness for the amended C8: `"bad"` fails with the format error, and
`"1((2)"` (two `'('`) fails. -/
theorem parse_tolerance_value_paren_check_witness :
    parse_tolerance_value "bad" =
      .error "Invalid format. Please provide value in the format X.Y(Z)" ∧
    (∃ e, parse_tolerance_value "1((2)" = .error e) :=
  ⟨(parse_tolerance_value_paren_check "bad").1 (by decide),
   (parse_tolerance_value_paren_check "1((2)").2 (by decide)⟩

/-- C10: a negative uncertainty (for example `"1.0(-4)"`) is not rejected:
`int()` accepts it, the parse succeeds and returns
`(value - u * 10 ^ order, value + u * 10 ^ order)`, whose first component is
strictly greater than its second. -/
theorem parse_tolerance_value_negative_uncertainty :
    (∀ s mn mx value_str uncertainty_raw u,
      parse_tolerance_value s = .ok (mn, mx) →
      splitOnChar '(' s.data = [value_str, uncertainty_raw] →
      parsePyInt (stripChar ')' uncertainty_raw) = some u →
      u < 0 → mx < mn) ∧
    parse_tolerance_value "1.0(-4)" = .ok (7/5, 3/5) := by
  constructor
  · intro s mn mx vstr ustr u h hsplit hu hneg
    obtain ⟨vstr', ustr', v, u', o, hsplit', hv', hu', ho', hmn, hmx⟩ :=
      parse_tolerance_value_ok_inv s mn mx h
    rw [hsplit] at hsplit'
    injection hsplit' with h1 h2
    injection h2 with h2 h3
    subst h1
    subst h2
    rw [hu] at hu'
    injection hu' with hu'
    subst hu'
    have hp := pow10_pos o
    have hup : (u : ℚ) * pow10 o < 0 :=
      mul_neg_of_neg_of_pos (by exact_mod_cast hneg) hp
    rw [hmn, hmx]
    linarith
  · exact parse_eval_10_neg4

/-- Witness for C10 at `"1.0(-4)"`: the parse succeeds with the inverted
interval `(1.4, 0.6)`. -/
theorem parse_tolerance_value_negative_uncertainty_witness :
    parse_tolerance_value "1.0(-4)" = .ok (7/5, 3/5) ∧ (3/5 : ℚ) < 7/5 :=
  ⟨parse_tolerance_value_negative_uncertainty.2,
   parse_tolerance_value_negative_uncertainty.1 "1.0(-4)" (7/5) (3/5)
     ['1', '.', '0'] ['-', '4', ')'] (-4)
     parse_tolerance_value_negative_uncertainty.2 (by decide) (by decide) (by decide)⟩

/-- C9: for the operand tokens `"1.0(1)"` and `"2.0(1)"` and a 64-byte operand
buffer, with `enc` any 64-bit encoding of doubles, the parses yield
`(0.9, 1.1)` and `(1.9, 2.1)` exactly, and the packed buffer of the four
doubles `[aMin, aMax, bMin, bMax]` has its first 32 bytes decode back to those
four doubles while its bytes 32..64 are all zero. -/
theorem operand_buffer_end_to_end (enc : ℚ → Nat) (henc : ∀ x, enc x < 2 ^ 64) :
    parse_tolerance_value "1.0(1)" = .ok (9/10, 11/10) ∧
    parse_tolerance_value "2.0(1)" = .ok (19/10, 21/10) ∧
    ∃ data, pack_doubles [enc (9/10), enc (11/10), enc (19/10), enc (21/10)] 64 = .ok data ∧
      data.length = 64 ∧
      unpack_doubles (data.take 32) 4 =
        .ok [enc (9/10), enc (11/10), enc (19/10), enc (21/10)] ∧
      data.drop 32 = List.replicate 32 0 := by
  refine ⟨parse_eval_10_1, parse_eval_20_1, ?_⟩
  have hvlen : ([enc (9/10), enc (11/10), enc (19/10), enc (21/10)] : List Nat).length = 4 := rfl
  have hsp_len : (structPackDoubles [enc (9/10), enc (11/10), enc (19/10), enc (21/10)]).length
      = 32 := by rw [structPackDoubles_length, hvlen]
  have hmem : ∀ d ∈ [enc (9/10), enc (11/10), enc (19/10), enc (21/10)], d < 2 ^ 64 := by
    intro d hd
    rcases (by simpa using hd : d = enc (9/10) ∨ d = enc (11/10) ∨ d = enc (19/10) ∨
      d = enc (21/10)) with h | h | h | h <;> (subst h; exact henc _)
  refine ⟨structPackDoubles [enc (9/10), enc (11/10), enc (19/10), enc (21/10)] ++
    List.replicate 32 0, ?_, ?_, ?_, ?_⟩
  · have h := pack_doubles_of_le [enc (9/10), enc (11/10), enc (19/10), enc (21/10)] 64
      (by rw [hvlen]; norm_num)
    rw [hvlen] at h
    simpa using h
  · simp [hsp_len]
  · have htake : (structPackDoubles [enc (9/10), enc (11/10), enc (19/10), enc (21/10)] ++
        List.replicate 32 0).take 32 =
        structPackDoubles [enc (9/10), enc (11/10), enc (19/10), enc (21/10)] := by
      rw [List.take_append_of_le_length (le_of_eq hsp_len.symm)]
      exact List.take_of_length_le (le_of_eq hsp_len)
    rw [htake]
    unfold unpack_doubles
    have hnot : ¬ ((structPackDoubles
        [enc (9/10), enc (11/10), enc (19/10), enc (21/10)]).length < 8 * 4) := by
      rw [hsp_len]; norm_num
    simp only [hnot, if_false]
    rw [List.take_of_length_le (by rw [hsp_len])]
    rw [show (4 : Nat) = ([enc (9/10), enc (11/10), enc (19/10), enc (21/10)] :
      List Nat).length from hvlen.symm]
    rw [structUnpackDoubles_structPackDoubles _ hmem]
  · rw [← hsp_len]
    exact List.drop_left _ _

/-- Witness for C9 with the trivial 64-bit encoding that sends every rational
to the zero pattern. -/
theorem operand_buffer_end_to_end_witness :
    parse_tolerance_value "1.0(1)" = .ok (9/10, 11/10) ∧
    parse_tolerance_value "2.0(1)" = .ok (19/10, 21/10) ∧
    ∃ data, pack_doubles [0, 0, 0, 0] 64 = .ok data ∧
      data.length = 64 ∧
      unpack_doubles (data.take 32) 4 = .ok [0, 0, 0, 0] ∧
      data.drop 32 = List.replicate 32 0 :=
  operand_buffer_end_to_end (fun _ => 0) (fun _ => by norm_num)
